import Mathlib

/-!
Verification development for the memberlist-quic transport core:
a shallow embedding of the fallback send protocol (sendDatagram,
sendViaStream, handleUniStream), the connection pool (GetConnection,
GetOrDial, CloseConnection, AddInbound, sweep) and the orchestrator's
DialAddressTimeout, with theorems settling the specification's claims.

Bytes are lists of Nat, machine 32-bit arithmetic is Nat with explicit
`% 4294967296`, times and Go durations are Int (time.Duration is signed),
and connections are identified by Nat ids whose session liveness
(`conn.Context().Err() == nil`) is given by an environment `World`.
-/

namespace MQuic

/-- Big-endian 32-bit encoding of a value already reduced below 2^32,
as written by binary.BigEndian.PutUint32. -/
def putUint32BE (n : Nat) : List Nat :=
  [n / 16777216 % 256, n / 65536 % 256, n / 256 % 256, n % 256]

/-- Big-endian 32-bit decoding of four bytes, as read by
binary.BigEndian.Uint32. -/
def beUint32 (b0 b1 b2 b3 : Nat) : Nat :=
  ((b0 * 256 + b1) * 256 + b2) * 256 + b3

/-- The bytes sendViaStream writes on the unidirectional stream:
a 4-byte big-endian prefix holding uint32(len(payload)), i.e. the length
truncated modulo 2^32, followed by the payload bytes. -/
def sendViaStreamWire (payload : List Nat) : List Nat :=
  putUint32BE (payload.length % 4294967296) ++ payload

/-- Outcome environment for the three fallible steps of sendViaStream:
OpenUniStream, the header write and the payload write. -/
structure UniStreamEnv where
  openOk : Bool
  writeHdrOk : Bool
  writePayloadOk : Bool

/-- Model of sendViaStream: open a unidirectional stream, write the
4-byte length header, write the payload, close. The source performs no
size check of its own; on success the wire bytes are the framed payload. -/
def sendViaStream (env : UniStreamEnv) (payload : List Nat) :
    Except Unit (List Nat) :=
  if env.openOk = false then .error ()
  else if env.writeHdrOk = false then .error ()
  else if env.writePayloadOk = false then .error ()
  else .ok (sendViaStreamWire payload)

/-- Model of handleUniStream, applied to the byte sequence available on
the incoming unidirectional stream: read exactly 4 header bytes (fail on
a shorter stream), decode the big-endian size, drop the stream if the
size exceeds 65536, read exactly `size` payload bytes (fail if fewer are
present), and deliver the payload as an inbound packet. -/
def handleUniStream (wire : List Nat) : Option (List Nat) :=
  match wire with
  | b0 :: b1 :: b2 :: b3 :: rest =>
    let size := beUint32 b0 b1 b2 b3
    if size > 65536 then none
    else if rest.length < size then none
    else some (rest.take size)
  | _ => none

/-- Decoded value of the 4-byte length prefix at the front of a frame. -/
def framePrefixValue (wire : List Nat) : Nat :=
  match wire with
  | b0 :: b1 :: b2 :: b3 :: _ => beUint32 b0 b1 b2 b3
  | _ => 0

/-- Observable I/O actions of sendDatagram. -/
inductive SendAction where
  | dgramAttempt
  | streamAttempt
  deriving DecidableEq, Repr

/-- Errors surfaced by the packet send path: a datagram error carries
whether it unwraps to quic.DatagramTooLargeError plus an identifying
code, a stream error carries the code of the failing stream operation. -/
inductive SendErr where
  | dgram (tooLarge : Bool) (code : Nat)
  | stream (code : Nat)
  deriving DecidableEq, Repr

/-- Per-connection environment for one sendDatagram call: whether the
remote peer advertises datagram support, the outcome SendDatagram would
produce for this payload (none = success), and the outcome the framed
stream path would produce (none = success). -/
structure DgramConn where
  supportsDatagramsRemote : Bool
  datagramResult : Option (Bool × Nat)
  streamResult : Option Nat

/-- Error produced by the stream path of this connection, if any. -/
def DgramConn.streamErr (c : DgramConn) : Option SendErr :=
  c.streamResult.map .stream

/-- Model of sendDatagram: if the remote does not support datagrams, go
straight to sendViaStream; otherwise attempt SendDatagram; on a
DatagramTooLargeError retry once via sendViaStream; any other datagram
error is returned unmodified. Returns the action trace and the error. -/
def sendDatagram (c : DgramConn) : List SendAction × Option SendErr :=
  if c.supportsDatagramsRemote = false then
    ([.streamAttempt], c.streamErr)
  else
    match c.datagramResult with
    | none => ([.dgramAttempt], none)
    | some (true, _code) => ([.dgramAttempt, .streamAttempt], c.streamErr)
    | some (false, code) => ([.dgramAttempt], some (.dgram false code))

theorem beUint32_putUint32BE (n : Nat) (h : n < 4294967296) :
    beUint32 (n / 16777216 % 256) (n / 65536 % 256) (n / 256 % 256)
      (n % 256) = n := by
  unfold beUint32
  omega

theorem putUint32BE_spec (n : Nat) :
    putUint32BE n =
      [n / 16777216 % 256, n / 65536 % 256, n / 256 % 256, n % 256] := rfl

/-- Session-liveness environment: `alive c` models
`c.Context().Err() == nil` for the session with id `c`. -/
structure World where
  alive : Nat → Bool

/-- A pool entry: the connection field (nil or a session id) and the
createdAt timestamp, set on each successful (re)bind by setConn. -/
structure Entry where
  conn : Option Nat
  createdAt : Int
  deriving DecidableEq, Repr

/-- The pool's entries map, address string to entry, modelled as an
association list mirroring sync.Map (keys unique in every state the
operations produce). -/
abbrev Pool := List (String × Entry)

/-- Lookup of the entry stored for an address (sync.Map Load). -/
def lookupEntry : Pool → String → Option Entry
  | [], _ => none
  | (b, e) :: rest, a => if b = a then some e else lookupEntry rest a

/-- Store an entry under an address, replacing any existing binding
(sync.Map Store / the store half of LoadOrStore). -/
def setEntry : Pool → String → Entry → Pool
  | [], a, e => [(a, e)]
  | (b, e0) :: rest, a, e =>
    if b = a then (a, e) :: rest else (b, e0) :: setEntry rest a e

/-- Remove the binding for an address (sync.Map Delete). -/
def removeEntry : Pool → String → Pool
  | [], _ => []
  | (b, e) :: rest, a =>
    if b = a then removeEntry rest a else (b, e) :: removeEntry rest a

/-- Model of getAliveConn: the entry's connection when it is non-nil and
its session context reports no error, otherwise nil. -/
def getAliveConn (w : World) (e : Entry) : Option Nat :=
  match e.conn with
  | some c => if w.alive c then some c else none
  | none => none

/-- Model of GetConnection: load the entry for the address; return its
connection when alive; when the entry is dead, delete it and return
nil. Returns the updated pool and the result. -/
def getConnection (w : World) (p : Pool) (addr : String) :
    Pool × Option Nat :=
  match lookupEntry p addr with
  | none => (p, none)
  | some e =>
    match getAliveConn w e with
    | some c => (p, some c)
    | none => (removeEntry p addr, none)

/-- Outcome of the resolve-and-dial portion of one GetOrDial call:
address resolution error, transport.Dial error, or a successfully
dialed session id. -/
inductive DialOutcome where
  | resolveErr
  | dialErr
  | ok (c : Nat)
  deriving DecidableEq, Repr

/-- Number of transport.Dial calls a DialOutcome stands for: address
resolution fails before any dial, the other outcomes are one dial. -/
def DialOutcome.dialCount : DialOutcome → Nat
  | .resolveErr => 0
  | .dialErr => 1
  | .ok _ => 1

/-- Model of GetOrDial, serialized: fast-path GetConnection; on a miss,
LoadOrStore an empty entry for dedup, re-check liveness under the
entry's lock, then resolve and dial per the supplied outcome. On dial
success the session is bound into the entry (setConn); on failure the
entry is left as it was. Returns the updated pool, the caller's result
and the number of transport.Dial calls performed. -/
def getOrDial (w : World) (d : DialOutcome) (p : Pool) (addr : String)
    (now : Int) : Pool × Except Unit Nat × Nat :=
  match getConnection w p addr with
  | (p1, some c) => (p1, .ok c, 0)
  | (p1, none) =>
    let le := lookupEntry p1 addr
    let p2 := match le with
      | some _ => p1
      | none => setEntry p1 addr ⟨none, 0⟩
    let entry := match le with
      | some e => e
      | none => (⟨none, 0⟩ : Entry)
    match getAliveConn w entry with
    | some c => (p2, .ok c, 0)
    | none =>
      match d with
      | .resolveErr => (p2, .error (), 0)
      | .dialErr => (p2, .error (), 1)
      | .ok c => (setEntry p2 addr ⟨some c, now⟩, .ok c, 1)

/-- Model of CloseConnection: LoadAndDelete the entry; when present and
its connection is non-nil, close it with the "connection closed"
reason. Returns the updated pool and the close actions performed. -/
def closeConnection (p : Pool) (addr : String) :
    Pool × List (Nat × String) :=
  match lookupEntry p addr with
  | none => (p, [])
  | some e =>
    (removeEntry p addr,
      match e.conn with
      | some c => [(c, "connection closed")]
      | none => [])

/-- Model of AddInbound: build a fresh entry bound to the inbound
connection, LoadOrStore it under the connection's remote address; when
an entry already existed, rebind it to the inbound connection only if
its current connection is dead. No connection is ever closed. Returns
the updated pool and the close actions performed (always none). -/
def addInbound (w : World) (p : Pool) (addr : String) (c : Nat)
    (now : Int) : Pool × List (Nat × String) :=
  match lookupEntry p addr with
  | none => (setEntry p addr ⟨some c, now⟩, [])
  | some existing =>
    match getAliveConn w existing with
    | some _ => (p, [])
    | none => (setEntry p addr ⟨some c, now⟩, [])

/-- Model of one sweep pass: every entry whose connection is nil or
whose session reports an error is removed; when maxAge is positive, an
entry whose age exceeds maxAge is closed with the explicit max-age
reason and removed; every other entry is kept unchanged. Returns the
surviving pool and the close actions performed. -/
def sweep (w : World) (maxAge now : Int) : Pool → Pool × List (Nat × String)
  | [] => ([], [])
  | (a, e) :: rest =>
    let r := sweep w maxAge now rest
    match e.conn with
    | none => r
    | some c =>
      if w.alive c = false then r
      else if maxAge > 0 ∧ now - e.createdAt > maxAge then
        (r.1, (c, "max connection age exceeded") :: r.2)
      else ((a, e) :: r.1, r.2)

/-- A sequence of GetOrDial calls against one address, serialized in the
order the per-entry lock admits them; each call's resolve-and-dial
outcome is drawn from the list. Returns the final pool, each caller's
result in order, and the total number of transport.Dial calls. -/
def runCalls (w : World) (addr : String) (now : Int) :
    Pool → List DialOutcome → Pool × List (Except Unit Nat) × Nat
  | p, [] => (p, [], 0)
  | p, d :: ds =>
    let r1 := getOrDial w d p addr now
    let r2 := runCalls w addr now r1.1 ds
    (r2.1, r1.2.1 :: r2.2.1, r1.2.2 + r2.2.2)

/-- The quicStreamConn adapter returned by DialAddressTimeout: the
pooled session it was opened on, the bidirectional stream id, and the
absolute deadline set on the stream (none when never set). -/
structure StreamAdapter where
  connId : Nat
  streamId : Nat
  deadline : Option Int
  deriving DecidableEq, Repr

/-- Model of DialAddressTimeout: resolve-or-dial through the pool using
the shutdown-driven context (the timeout is not consulted), open a new
bidirectional stream on the connection, wrap it, and set an absolute
deadline of now plus the timeout on the adapter exactly when the
timeout is positive. -/
def dialAddressTimeout (w : World) (d : DialOutcome) (p : Pool)
    (addr : String) (openStream : Nat → Except Unit Nat)
    (timeout now : Int) : Pool × Except Unit StreamAdapter :=
  match getOrDial w d p addr now with
  | (p1, .error e, _) => (p1, .error e)
  | (p1, .ok conn, _) =>
    match openStream conn with
    | .error e => (p1, .error e)
    | .ok sid =>
      let sc : StreamAdapter := ⟨conn, sid, none⟩
      if timeout > 0 then
        (p1, .ok { sc with deadline := some (now + timeout) })
      else (p1, .ok sc)

/-- Connection and stream of an adapter result, forgetting the
deadline. -/
def adapterHandles : Except Unit StreamAdapter → Except Unit (Nat × Nat)
  | .error e => .error e
  | .ok sc => .ok (sc.connId, sc.streamId)

/-- The claimed pool invariant: every entry present in the map holds a
non-nil connection. -/
def PoolInv (p : Pool) : Prop :=
  ∀ a e, lookupEntry p a = some e → e.conn ≠ none

/-- An entry is dead when its connection is nil or its session reports
an error. -/
def entryDead (w : World) (e : Entry) : Bool :=
  (getAliveConn w e).isNone

/-- An entry is over age when maxAge is configured positive and the
entry's age exceeds it. -/
def entryOverAge (maxAge now : Int) (e : Entry) : Bool :=
  if maxAge > 0 ∧ now - e.createdAt > maxAge then true else false

theorem lookupEntry_setEntry_self (p : Pool) (a : String) (e : Entry) :
    lookupEntry (setEntry p a e) a = some e := by
  induction p with
  | nil => simp [setEntry, lookupEntry]
  | cons hd tl ih =>
    by_cases h : hd.1 = a
    · simp [setEntry, lookupEntry, h]
    · simpa [setEntry, lookupEntry, h] using ih

theorem lookupEntry_setEntry_ne (p : Pool) (a b : String) (e : Entry)
    (h : a ≠ b) :
    lookupEntry (setEntry p a e) b = lookupEntry p b := by
  induction p with
  | nil => simp [setEntry, lookupEntry, h]
  | cons hd tl ih =>
    by_cases h1 : hd.1 = a
    · simp [setEntry, lookupEntry, h1, h]
    · simp only [setEntry, lookupEntry, if_neg h1]
      by_cases h2 : hd.1 = b <;> simp [lookupEntry, h2, ih]

theorem lookupEntry_removeEntry_self (p : Pool) (a : String) :
    lookupEntry (removeEntry p a) a = none := by
  induction p with
  | nil => simp [removeEntry, lookupEntry]
  | cons hd tl ih =>
    by_cases h : hd.1 = a
    · simpa [removeEntry, h] using ih
    · simp [removeEntry, lookupEntry, h, ih]

theorem lookupEntry_removeEntry_ne (p : Pool) (a b : String) (h : a ≠ b) :
    lookupEntry (removeEntry p a) b = lookupEntry p b := by
  induction p with
  | nil => simp [removeEntry]
  | cons hd tl ih =>
    obtain ⟨k, v⟩ := hd
    by_cases h1 : k = a
    · have h2 : k ≠ b := by rw [h1]; exact h
      simp [removeEntry, lookupEntry, h1, h2, h, ih]
    · by_cases h2 : k = b <;>
        simp [removeEntry, lookupEntry, h1, h2, Ne.symm h, ih]

theorem mem_setEntry {x : String × Entry} {p : Pool} {a : String}
    {e : Entry} (hx : x ∈ setEntry p a e) : x = (a, e) ∨ x ∈ p := by
  induction p with
  | nil => simpa [setEntry] using hx
  | cons hd tl ih =>
    by_cases h : hd.1 = a
    · simp only [setEntry, if_pos h, List.mem_cons] at hx
      rcases hx with hx | hx
      · exact .inl hx
      · exact .inr (List.mem_cons_of_mem _ hx)
    · simp only [setEntry, if_neg h, List.mem_cons] at hx
      rcases hx with hx | hx
      · exact .inr (hx ▸ List.mem_cons_self _ _)
      · rcases ih hx with h1 | h1
        · exact .inl h1
        · exact .inr (List.mem_cons_of_mem _ h1)

theorem mem_removeEntry {x : String × Entry} {p : Pool} {a : String}
    (hx : x ∈ removeEntry p a) : x ∈ p := by
  induction p with
  | nil => simp [removeEntry] at hx
  | cons hd tl ih =>
    by_cases h : hd.1 = a
    · simp only [removeEntry, if_pos h] at hx
      exact List.mem_cons_of_mem _ (ih hx)
    · simp only [removeEntry, if_neg h, List.mem_cons] at hx
      rcases hx with hx | hx
      · exact hx ▸ List.mem_cons_self _ _
      · exact List.mem_cons_of_mem _ (ih hx)

/-- C2: sendDatagram sends via the framed-stream path without a datagram
attempt when the remote does not support datagrams; otherwise it
attempts a datagram, on success stops, on a datagram-too-large error
retries exactly once via the framed-stream path, and returns any other
datagram error unmodified with no stream attempt. -/
theorem sendDatagram_cases (c : DgramConn) :
    (c.supportsDatagramsRemote = false →
        sendDatagram c = ([.streamAttempt], c.streamErr)) ∧
    (c.supportsDatagramsRemote = true → c.datagramResult = none →
        sendDatagram c = ([.dgramAttempt], none)) ∧
    (∀ code, c.supportsDatagramsRemote = true →
        c.datagramResult = some (true, code) →
        sendDatagram c = ([.dgramAttempt, .streamAttempt], c.streamErr)) ∧
    (∀ code, c.supportsDatagramsRemote = true →
        c.datagramResult = some (false, code) →
        sendDatagram c = ([.dgramAttempt], some (.dgram false code))) := by
  refine ⟨?_, ?_, ?_, ?_⟩ <;> intros <;> simp [sendDatagram, *]

/-- Witness for sendDatagram_cases at concrete connections covering the
four branches. -/
theorem sendDatagram_cases_witness :
    sendDatagram ⟨false, none, some 3⟩ =
      ([.streamAttempt], some (.stream 3)) ∧
    sendDatagram ⟨true, none, none⟩ = ([.dgramAttempt], none) ∧
    sendDatagram ⟨true, some (true, 5), none⟩ =
      ([.dgramAttempt, .streamAttempt], none) ∧
    sendDatagram ⟨true, some (false, 9), none⟩ =
      ([.dgramAttempt], some (.dgram false 9)) :=
  ⟨(sendDatagram_cases _).1 rfl,
   (sendDatagram_cases _).2.1 rfl rfl,
   (sendDatagram_cases _).2.2.1 5 rfl rfl,
   (sendDatagram_cases _).2.2.2 9 rfl rfl⟩

/-- C3: for every payload of at most 65536 bytes, the framed-stream
encoding written by sendViaStream decodes through handleUniStream to an
inbound packet holding exactly the original payload bytes. -/
theorem stream_frame_roundtrip (payload : List Nat)
    (h : payload.length ≤ 65536) :
    handleUniStream (sendViaStreamWire payload) = some payload := by
  have hlt : payload.length < 4294967296 := by omega
  have hmod : payload.length % 4294967296 = payload.length :=
    Nat.mod_eq_of_lt hlt
  have hbe := beUint32_putUint32BE payload.length hlt
  simp only [sendViaStreamWire, putUint32BE, hmod, List.cons_append,
    List.nil_append, handleUniStream, hbe]
  rw [if_neg (by omega), if_neg (by omega)]
  simp

/-- Witness for stream_frame_roundtrip on a concrete three-byte
payload. -/
theorem stream_frame_roundtrip_witness :
    ([1, 2, 3] : List Nat).length ≤ 65536 ∧
      handleUniStream (sendViaStreamWire [1, 2, 3]) = some [1, 2, 3] :=
  ⟨by decide, stream_frame_roundtrip [1, 2, 3] (by decide)⟩

/-- C4: handleUniStream drops a frame whose declared length exceeds
65536 with no packet event; delivers the declared-length payload of a
frame whose declared length is at most 65536 when the payload bytes are
present; and produces no event on a truncated header or truncated
payload. -/
theorem handleUniStream_cases :
    (∀ b0 b1 b2 b3 : Nat, ∀ rest : List Nat,
        65536 < beUint32 b0 b1 b2 b3 →
        handleUniStream (b0 :: b1 :: b2 :: b3 :: rest) = none) ∧
    (∀ b0 b1 b2 b3 : Nat, ∀ rest : List Nat,
        beUint32 b0 b1 b2 b3 ≤ 65536 →
        beUint32 b0 b1 b2 b3 ≤ rest.length →
        handleUniStream (b0 :: b1 :: b2 :: b3 :: rest) =
          some (rest.take (beUint32 b0 b1 b2 b3))) ∧
    (∀ wire : List Nat, wire.length < 4 → handleUniStream wire = none) ∧
    (∀ b0 b1 b2 b3 : Nat, ∀ rest : List Nat,
        rest.length < beUint32 b0 b1 b2 b3 →
        handleUniStream (b0 :: b1 :: b2 :: b3 :: rest) = none) := by
  refine ⟨?_, ?_, ?_, ?_⟩
  · intro b0 b1 b2 b3 rest h
    simp only [handleUniStream]
    rw [if_pos h]
  · intro b0 b1 b2 b3 rest h1 h2
    simp only [handleUniStream]
    rw [if_neg (by omega), if_neg (by omega)]
  · intro wire h
    match wire with
    | [] => rfl
    | [_] => rfl
    | [_, _] => rfl
    | [_, _, _] => rfl
    | _ :: _ :: _ :: _ :: _ =>
      simp only [List.length_cons] at h
      omega
  · intro b0 b1 b2 b3 rest h
    simp only [handleUniStream]
    by_cases h1 : 65536 < beUint32 b0 b1 b2 b3
    · rw [if_pos h1]
    · rw [if_neg h1, if_pos h]

/-- Witness for handleUniStream_cases at concrete frames covering the
four behaviors. -/
theorem handleUniStream_cases_witness :
    handleUniStream (0 :: 1 :: 17 :: 113 :: []) = none ∧
    handleUniStream (0 :: 0 :: 0 :: 2 :: [7, 8]) = some [7, 8] ∧
    handleUniStream [0, 0] = none ∧
    handleUniStream (0 :: 0 :: 0 :: 3 :: [7, 8]) = none :=
  ⟨handleUniStream_cases.1 0 1 17 113 [] (by decide),
   by simpa using
     handleUniStream_cases.2.1 0 0 0 2 [7, 8] (by decide) (by decide),
   handleUniStream_cases.2.2.1 [0, 0] (by decide),
   handleUniStream_cases.2.2.2 0 0 0 3 [7, 8] (by decide)⟩

/-- C8 counterexample: a 70000-byte payload exceeds the 65536 safety
ceiling, yet sendViaStream performs no sending-side size check and the
send completes successfully. -/
theorem oversize_send_completes :
    65536 < (List.replicate 70000 (0 : Nat)).length ∧
    ∃ bytes, sendViaStream ⟨true, true, true⟩ (List.replicate 70000 0) =
      .ok bytes := by
  refine ⟨by rw [List.length_replicate]; norm_num, ⟨_, rfl⟩⟩

/-- C8 amended: the 65536 safety ceiling is enforced only by the
receiver: a send of an over-ceiling payload through the framed-stream
path completes successfully at the sender, and the receiver drops the
resulting frame, delivering no inbound-packet event. -/
theorem oversize_receiver_only_enforcement (payload : List Nat)
    (h1 : 65536 < payload.length) (h2 : payload.length < 4294967296) :
    sendViaStream ⟨true, true, true⟩ payload =
      .ok (sendViaStreamWire payload) ∧
    handleUniStream (sendViaStreamWire payload) = none := by
  refine ⟨rfl, ?_⟩
  have hmod : payload.length % 4294967296 = payload.length :=
    Nat.mod_eq_of_lt h2
  have hbe := beUint32_putUint32BE payload.length h2
  simp only [sendViaStreamWire, putUint32BE, hmod, List.cons_append,
    List.nil_append, handleUniStream, hbe]
  rw [if_pos h1]

/-- Witness for oversize_receiver_only_enforcement at the 70000-byte
payload of the specification's end-to-end scenario. -/
theorem oversize_receiver_only_enforcement_witness :
    65536 < (List.replicate 70000 (0 : Nat)).length ∧
    (List.replicate 70000 (0 : Nat)).length < 4294967296 ∧
    handleUniStream (sendViaStreamWire (List.replicate 70000 0)) =
      none :=
  ⟨by rw [List.length_replicate]; norm_num,
   by rw [List.length_replicate]; norm_num,
   (oversize_receiver_only_enforcement (List.replicate 70000 0)
     (by rw [List.length_replicate]; norm_num)
     (by rw [List.length_replicate]; norm_num)).2⟩

/-- C10: the 4-byte prefix written by sendViaStream decodes to the
payload length reduced modulo 2^32, and equals the true payload length
exactly when the payload is shorter than 2^32 bytes. -/
theorem framePrefix_mod (payload : List Nat) :
    framePrefixValue (sendViaStreamWire payload) =
      payload.length % 4294967296 ∧
    (framePrefixValue (sendViaStreamWire payload) = payload.length ↔
      payload.length < 4294967296) := by
  have h1 : framePrefixValue (sendViaStreamWire payload) =
      payload.length % 4294967296 := by
    simp only [sendViaStreamWire, putUint32BE, List.cons_append,
      List.nil_append, framePrefixValue]
    exact beUint32_putUint32BE _ (Nat.mod_lt _ (by norm_num))
  refine ⟨h1, ?_⟩
  rw [h1]
  constructor
  · intro h2
    rw [← h2]
    exact Nat.mod_lt _ (by norm_num)
  · exact Nat.mod_eq_of_lt

/-- C5: AddInbound binds the inbound connection when no entry exists
for its remote address; keeps the existing connection, neither storing
nor closing the inbound one, when the existing entry is alive; and
rebinds the entry to the inbound connection only when the existing
entry is dead. It closes nothing in any case. -/
theorem addInbound_cases (w : World) (p : Pool) (addr : String) (c : Nat)
    (now : Int) :
    (lookupEntry p addr = none →
        addInbound w p addr c now =
          (setEntry p addr ⟨some c, now⟩, [])) ∧
    (∀ e c0, lookupEntry p addr = some e → getAliveConn w e = some c0 →
        addInbound w p addr c now = (p, [])) ∧
    (∀ e, lookupEntry p addr = some e → getAliveConn w e = none →
        addInbound w p addr c now =
          (setEntry p addr ⟨some c, now⟩, [])) := by
  refine ⟨?_, ?_, ?_⟩ <;> intros <;> simp [addInbound, *]

/-- Witness for addInbound_cases at concrete pools covering the three
branches. -/
theorem addInbound_cases_witness :
    addInbound ⟨fun _ => true⟩ [] "a" 7 5 = ([("a", ⟨some 7, 5⟩)], []) ∧
    addInbound ⟨fun _ => true⟩ [("a", ⟨some 1, 0⟩)] "a" 7 5 =
      ([("a", ⟨some 1, 0⟩)], []) ∧
    addInbound ⟨fun _ => false⟩ [("a", ⟨some 1, 0⟩)] "a" 7 5 =
      ([("a", ⟨some 7, 5⟩)], []) :=
  ⟨(addInbound_cases ⟨fun _ => true⟩ [] "a" 7 5).1 rfl,
   (addInbound_cases ⟨fun _ => true⟩ [("a", ⟨some 1, 0⟩)] "a" 7 5).2.1
     ⟨some 1, 0⟩ 1 (by decide) rfl,
   (addInbound_cases ⟨fun _ => false⟩ [("a", ⟨some 1, 0⟩)] "a" 7 5).2.2
     ⟨some 1, 0⟩ (by decide) rfl⟩

theorem sweep_spec_aux (w : World) (maxAge now : Int) (p : Pool) :
    (sweep w maxAge now p).1 =
      p.filter
        (fun x => !entryDead w x.2 && !entryOverAge maxAge now x.2) ∧
    (sweep w maxAge now p).2 =
      (p.filter
        (fun x => !entryDead w x.2 && entryOverAge maxAge now x.2)).filterMap
        (fun x =>
          x.2.conn.map (fun c => (c, "max connection age exceeded"))) := by
  induction p with
  | nil => exact ⟨rfl, rfl⟩
  | cons hd tl ih =>
    obtain ⟨a, e⟩ := hd
    cases he : e.conn with
    | none =>
      have hdead : entryDead w e = true := by
        simp [entryDead, getAliveConn, he]
      constructor <;>
        simp [sweep, List.filter_cons, he, hdead, ih.1, ih.2]
    | some c =>
      by_cases ha : w.alive c
      · have hdead : entryDead w e = false := by
          simp [entryDead, getAliveConn, he, ha]
        by_cases hov : maxAge > 0 ∧ now - e.createdAt > maxAge
        · have hage : entryOverAge maxAge now e = true := by
            simp [entryOverAge, hov]
          constructor <;>
            simp [sweep, List.filter_cons, he, ha, hov, hdead, hage,
              ih.1, ih.2]
        · have hage : entryOverAge maxAge now e = false := by
            simp [entryOverAge, hov]
          constructor <;>
            simp [sweep, List.filter_cons, he, ha, hov, hdead, hage,
              ih.1, ih.2]
      · have hdead : entryDead w e = true := by
          simp [entryDead, getAliveConn, he, ha]
        constructor <;>
          simp [sweep, List.filter_cons, he, ha, hdead, ih.1, ih.2]

/-- C7: one sweep pass removes every entry whose connection is nil or
whose session reports an error, force-closes with the explicit max-age
reason and removes every over-age entry when maxAge is configured
positive, and keeps every other entry unchanged. -/
theorem sweep_spec (w : World) (maxAge now : Int) (p : Pool) :
    (sweep w maxAge now p).1 =
      p.filter
        (fun x => !entryDead w x.2 && !entryOverAge maxAge now x.2) ∧
    (sweep w maxAge now p).2 =
      (p.filter
        (fun x =>
          !entryDead w x.2 && entryOverAge maxAge now x.2)).filterMap
        (fun x =>
          x.2.conn.map (fun c => (c, "max connection age exceeded"))) :=
  sweep_spec_aux w maxAge now p

/-- C9 counterexample: with a negative (hence nonzero) timeout,
DialAddressTimeout leaves the returned adapter's deadline unset, so the
deadline is not set "if and only if the timeout is nonzero". -/
theorem dialTimeout_negative_no_deadline :
    (dialAddressTimeout ⟨fun _ => true⟩ (.ok 2) [("a", ⟨some 1, 0⟩)] "a"
        (fun _ => .ok 7) (-1) 100).2 =
      .ok ⟨1, 7, none⟩ ∧ (-1 : Int) ≠ 0 := by
  exact ⟨rfl, by decide⟩

/-- C9 amended: DialAddressTimeout sets an absolute deadline of now
plus the timeout on the returned adapter exactly when the timeout is
positive; the timeout is never consulted by the preceding resolve-or-
dial or stream open, and nothing besides the adapter's deadline depends
on it. -/
theorem dialAddressTimeout_spec (w : World) (d : DialOutcome) (p : Pool)
    (addr : String) (os : Nat → Except Unit Nat) (timeout now : Int) :
    (∀ conn sid, (getOrDial w d p addr now).2.1 = .ok conn →
        os conn = .ok sid →
        (dialAddressTimeout w d p addr os timeout now).2 =
          .ok ⟨conn, sid,
            if timeout > 0 then some (now + timeout) else none⟩) ∧
    ((dialAddressTimeout w d p addr os timeout now).1 =
        (getOrDial w d p addr now).1) ∧
    (∀ timeout' : Int,
        (dialAddressTimeout w d p addr os timeout now).1 =
          (dialAddressTimeout w d p addr os timeout' now).1 ∧
        adapterHandles (dialAddressTimeout w d p addr os timeout now).2 =
          adapterHandles
            (dialAddressTimeout w d p addr os timeout' now).2) := by
  rcases hgd : getOrDial w d p addr now with ⟨p1, r, k⟩
  cases r with
  | error e =>
    refine ⟨?_, ?_, ?_⟩
    · intro conn sid h1 h2
      simp at h1
    · simp [dialAddressTimeout, hgd]
    · intro timeout'
      constructor <;> simp [dialAddressTimeout, hgd, adapterHandles]
  | ok conn0 =>
    cases hos : os conn0 with
    | error e =>
      refine ⟨?_, ?_, ?_⟩
      · intro conn sid h1 h2
        simp at h1
        rw [← h1] at h2
        rw [hos] at h2
        simp at h2
      · simp [dialAddressTimeout, hgd, hos]
      · intro timeout'
        constructor <;>
          simp [dialAddressTimeout, hgd, hos, adapterHandles]
    | ok sid0 =>
      refine ⟨?_, ?_, ?_⟩
      · intro conn sid h1 h2
        simp at h1
        rw [← h1] at h2
        rw [hos] at h2
        simp at h2
        subst h1
        subst h2
        by_cases ht : timeout > 0 <;>
          simp [dialAddressTimeout, hgd, hos, ht]
      · by_cases ht : timeout > 0 <;>
          simp [dialAddressTimeout, hgd, hos, ht]
      · intro timeout'
        refine ⟨?_, ?_⟩ <;>
          by_cases ht : timeout > 0 <;> by_cases ht' : timeout' > 0 <;>
            simp [dialAddressTimeout, hgd, hos, adapterHandles, ht, ht']

/-- Witness for dialAddressTimeout_spec at a pool holding an alive
connection, a succeeding stream open and a positive timeout. -/
theorem dialAddressTimeout_spec_witness :
    (dialAddressTimeout ⟨fun _ => true⟩ (.ok 2) [("a", ⟨some 1, 0⟩)] "a"
        (fun _ => .ok 7) 5 100).2 = .ok ⟨1, 7, some 105⟩ :=
  (dialAddressTimeout_spec ⟨fun _ => true⟩ (.ok 2) [("a", ⟨some 1, 0⟩)]
      "a" (fun _ => .ok 7) 5 100).1 1 7 rfl rfl

theorem getOrDial_fastpath (w : World) (d : DialOutcome) (addr : String)
    (now t : Int) (c : Nat) (p : Pool)
    (hl : lookupEntry p addr = some ⟨some c, t⟩) (ha : w.alive c = true) :
    getOrDial w d p addr now = (p, .ok c, 0) := by
  simp [getOrDial, getConnection, hl, getAliveConn, ha]

theorem runCalls_reuse (w : World) (addr : String) (now t : Int)
    (c : Nat) (ds : List DialOutcome) (p : Pool)
    (hl : lookupEntry p addr = some ⟨some c, t⟩) (ha : w.alive c = true) :
    runCalls w addr now p ds =
      (p, List.replicate ds.length (.ok c), 0) := by
  induction ds with
  | nil => simp [runCalls]
  | cons d ds ih =>
    simp [runCalls, getOrDial_fastpath w d addr now t c p hl ha, ih,
      List.replicate_succ]

/-- C1 counterexample: two serialized GetOrDial callers for the same
address whose dials fail each invoke transport.Dial once, so two
physical dials occur — more than the single dial the claim allows. -/
theorem two_failing_callers_two_dials :
    (runCalls ⟨fun _ => true⟩ "a" 0 [] [.dialErr, .dialErr]).2.2 = 2 ∧
    ¬(runCalls ⟨fun _ => true⟩ "a" 0 [] [.dialErr, .dialErr]).2.2 ≤ 1 := by
  exact ⟨by decide, by decide⟩

/-- C1 amended: callers serialize on the per-entry lock; when the first
caller's dial succeeds and the connection stays alive, every later
caller takes the fast path, so exactly one transport.Dial call occurs,
all callers return that same connection, and the pool afterwards holds
exactly one entry for the address; when a dial fails the error goes to
that caller, the entry is left dead, and a later caller dials again. -/
theorem dial_dedup_on_success (w : World) (addr : String) (now : Int)
    (c : Nat) (ds : List DialOutcome) (ha : w.alive c = true) :
    runCalls w addr now [] (.ok c :: ds) =
      ([(addr, ⟨some c, now⟩)],
        .ok c :: List.replicate ds.length (.ok c), 1) := by
  have h1 : getOrDial w (.ok c) [] addr now =
      ([(addr, ⟨some c, now⟩)], .ok c, 1) := by
    simp [getOrDial, getConnection, lookupEntry, getAliveConn, setEntry]
  have h2 := runCalls_reuse w addr now now c ds [(addr, ⟨some c, now⟩)]
    (by simp [lookupEntry]) ha
  simp [runCalls, h1, h2]

/-- Witness for dial_dedup_on_success: two callers, a succeeding first
dial; one physical dial occurs and both callers get connection 5. -/
theorem dial_dedup_on_success_witness :
    runCalls ⟨fun _ => true⟩ "a" 0 [] [.ok 5, .dialErr] =
      ([("a", ⟨some 5, 0⟩)], [.ok 5, .ok 5], 1) :=
  dial_dedup_on_success ⟨fun _ => true⟩ "a" 0 5 [.dialErr] rfl

theorem lookupEntry_some_mem {p : Pool} {a : String} {e : Entry}
    (h : lookupEntry p a = some e) : (a, e) ∈ p := by
  induction p with
  | nil => simp [lookupEntry] at h
  | cons hd tl ih =>
    obtain ⟨k, v⟩ := hd
    by_cases hk : k = a
    · simp only [lookupEntry, if_pos hk] at h
      cases h
      subst hk
      exact List.mem_cons_self _ _
    · simp only [lookupEntry, if_neg hk] at h
      exact List.mem_cons_of_mem _ (ih h)

theorem sweep_conn_ne {w : World} {maxAge now : Int} {p : Pool}
    {x : String × Entry} (hx : x ∈ (sweep w maxAge now p).1) :
    x.2.conn ≠ none := by
  rw [(sweep_spec_aux w maxAge now p).1] at hx
  have hpred := List.of_mem_filter hx
  cases hc : x.2.conn with
  | none => simp [entryDead, getAliveConn, hc] at hpred
  | some c => simp [hc]

theorem poolInv_removeEntry {p : Pool} {a : String} (hp : PoolInv p) :
    PoolInv (removeEntry p a) := by
  intro b e h
  by_cases hb : a = b
  · rw [hb, lookupEntry_removeEntry_self] at h
    cases h
  · rw [lookupEntry_removeEntry_ne p a b hb] at h
    exact hp b e h

theorem poolInv_setEntry {p : Pool} {a : String} {e0 : Entry}
    (hc : e0.conn ≠ none) (hp : PoolInv p) :
    PoolInv (setEntry p a e0) := by
  intro b e h
  by_cases hb : a = b
  · rw [← hb, lookupEntry_setEntry_self] at h
    cases h
    exact hc
  · rw [lookupEntry_setEntry_ne p a b e0 hb] at h
    exact hp b e h

theorem poolInv_getConnection (w : World) (addr : String) {p : Pool}
    (hp : PoolInv p) : PoolInv (getConnection w p addr).1 := by
  cases hl : lookupEntry p addr with
  | none => simpa [getConnection, hl] using hp
  | some e =>
    cases hg : getAliveConn w e with
    | some c => simpa [getConnection, hl, hg] using hp
    | none =>
      simp only [getConnection, hl, hg]
      exact poolInv_removeEntry hp

theorem poolInv_getOrDial_ok (w : World) (addr : String) (c : Nat)
    (now : Int) {p : Pool} (hp : PoolInv p) :
    PoolInv (getOrDial w (.ok c) p addr now).1 := by
  have hp1 : PoolInv (getConnection w p addr).1 :=
    poolInv_getConnection w addr hp
  rcases hgc : getConnection w p addr with ⟨p1, r⟩
  rw [hgc] at hp1
  cases r with
  | some c0 => simpa [getOrDial, hgc] using hp1
  | none =>
    cases hle : lookupEntry p1 addr with
    | some e =>
      cases hga : getAliveConn w e with
      | some c0 => simpa [getOrDial, hgc, hle, hga] using hp1
      | none =>
        simp only [getOrDial, hgc, hle, hga]
        exact poolInv_setEntry (by simp) hp1
    | none =>
      simp only [getOrDial, hgc, hle, getAliveConn]
      intro b e h
      by_cases hb : addr = b
      · rw [← hb, lookupEntry_setEntry_self] at h
        cases h
        simp
      · rw [lookupEntry_setEntry_ne _ addr b _ hb,
          lookupEntry_setEntry_ne _ addr b _ hb] at h
        exact hp1 b e h

/-- C6 counterexample: a GetOrDial whose dial fails returns with the
pool still holding the freshly created entry whose connection is nil,
so not every entry in the map holds a non-nil connection. -/
theorem getOrDial_failure_breaks_inv :
    ¬ PoolInv (getOrDial ⟨fun _ => true⟩ .dialErr [] "a" 0).1 := by
  intro h
  exact h "a" ⟨none, 0⟩ (by decide) rfl

/-- C6 amended: GetConnection, CloseConnection, AddInbound and a
successful GetOrDial preserve the all-entries-hold-a-connection
invariant, and sweep establishes it outright; but a GetOrDial whose
address resolution or dial failed leaves an entry with a nil connection
in the map, which the next GetConnection for that address evicts. -/
theorem poolInv_ops (w : World) (p : Pool) (addr : String) (c : Nat)
    (now maxAge : Int) :
    (PoolInv p → PoolInv (getConnection w p addr).1) ∧
    (PoolInv p → PoolInv (closeConnection p addr).1) ∧
    (PoolInv p → PoolInv (addInbound w p addr c now).1) ∧
    PoolInv (sweep w maxAge now p).1 ∧
    (PoolInv p → PoolInv (getOrDial w (.ok c) p addr now).1) ∧
    (∀ d : DialOutcome, (d = .dialErr ∨ d = .resolveErr) →
        lookupEntry p addr = none →
        lookupEntry (getOrDial w d p addr now).1 addr =
          some ⟨none, 0⟩) ∧
    (∀ e : Entry, lookupEntry p addr = some e →
        getAliveConn w e = none →
        lookupEntry (getConnection w p addr).1 addr = none) := by
  refine ⟨poolInv_getConnection w addr, ?_, ?_, ?_,
    poolInv_getOrDial_ok w addr c now, ?_, ?_⟩
  · intro hp
    cases hl : lookupEntry p addr with
    | none => simpa [closeConnection, hl] using hp
    | some e =>
      simp only [closeConnection, hl]
      exact poolInv_removeEntry hp
  · intro hp
    cases hl : lookupEntry p addr with
    | none =>
      simp only [addInbound, hl]
      exact poolInv_setEntry (by simp) hp
    | some e =>
      cases hg : getAliveConn w e with
      | some c0 => simpa [addInbound, hl, hg] using hp
      | none =>
        simp only [addInbound, hl, hg]
        exact poolInv_setEntry (by simp) hp
  · exact fun a e h => sweep_conn_ne (lookupEntry_some_mem h)
  · intro d hd hl
    rcases hd with rfl | rfl <;>
      simp [getOrDial, getConnection, hl, getAliveConn,
        lookupEntry_setEntry_self]
  · intro e hl hg
    simp [getConnection, hl, hg, lookupEntry_removeEntry_self]

/-- Witness for poolInv_ops on concrete pools: the invariant holds
after GetConnection on the empty pool, a failed dial leaves the nil
entry, and GetConnection then evicts it. -/
theorem poolInv_ops_witness :
    PoolInv (getConnection ⟨fun _ => true⟩ [] "a").1 ∧
    lookupEntry (getOrDial ⟨fun _ => true⟩ .dialErr [] "a" 0).1 "a" =
      some ⟨none, 0⟩ ∧
    lookupEntry
        (getConnection ⟨fun _ => true⟩ [("a", ⟨none, 0⟩)] "a").1 "a" =
      none := by
  have hp : PoolInv ([] : Pool) := fun a e h => by
    simp [lookupEntry] at h
  refine ⟨(poolInv_ops ⟨fun _ => true⟩ [] "a" 0 0 0).1 hp,
    (poolInv_ops ⟨fun _ => true⟩ [] "a" 0 0 0).2.2.2.2.2.1 .dialErr
      (Or.inl rfl) (by decide),
    (poolInv_ops ⟨fun _ => true⟩ [("a", ⟨none, 0⟩)] "a" 0 0 0).2.2.2.2.2.2
      ⟨none, 0⟩ (by decide) rfl⟩

end MQuic
